import Mathlib

/-!
Verification of the cleanup-script generator (kyma-incubator/cleanup-script-generator).

The program compares two Kubernetes manifest sets, computes the resources present in
the `from` set but absent from the `to` set, filters a user-supplied ignore list,
and emits a shell script of `kubectl delete` commands.  The definitions below are a
shallow embedding of `src/main.go` (the newest variant of the tool):

* Go strings are Lean `String`s; `strings.Split` with a one-character separator,
  `strings.Contains` with a one-character substring, and `strings.ToLower` are
  embedded char-wise over `String.data`.
* The Go map `map[string]kindNameVersion` is embedded as an association list with
  insert-or-overwrite semantics (`mapInsert`); `compare` sorts its result with a
  total order, so the arbitrary Go map iteration order is irrelevant to every
  property proved here.
* `sort.Slice` with the comparator of `compare` is embedded as insertion sort with
  respect to the reflexive negation of that comparator (the postcondition that the Go sort guarantees).
* Process output is modelled explicitly: `RunOutput` records the lines printed to
  the output writer and the content of the generated script file (if any).
* A Go panic from an unchecked type assertion (`manifest["kind"].(string)`) is
  modelled as `Option.none`.
-/

namespace Cleanup

/-- The identity triple of a manifest (`kindNameVersion` in `src/main.go`). -/
structure kindNameVersion where
  apiVersion : String
  kind : String
  name : String
deriving DecidableEq

/-- An ignore-list entry (`kindName` in `src/main.go`). -/
structure kindName where
  kind : String
  name : String
deriving DecidableEq

/-- Go `strings.Split(s, sep)` for a one-character separator, on char lists. -/
def splitListOn (sep : Char) : List Char → List (List Char)
  | [] => [[]]
  | c :: cs =>
    if c = sep then [] :: splitListOn sep cs
    else
      match splitListOn sep cs with
      | [] => [[c]]
      | r :: rs => (c :: r) :: rs

/-- Go `strings.Split(s, sep)` for a one-character separator, on strings. -/
def splitStrOn (sep : Char) (s : String) : List String :=
  (splitListOn sep s.data).map (fun l => String.mk l)

/-- Go `strings.Contains(s, sep)` for a one-character substring. -/
def goContains (s : String) (c : Char) : Bool :=
  s.data.any (fun x => x == c)

/-- Go `strings.ToLower`, char-wise (`Char.toLower` lowers the basic latin letters). -/
def goToLower (s : String) : String :=
  String.mk (s.data.map Char.toLower)

theorem splitListOn_ne_nil (sep : Char) (l : List Char) : splitListOn sep l ≠ [] := by
  cases l with
  | nil => simp [splitListOn]
  | cons c cs =>
    simp only [splitListOn]
    split
    · simp
    · cases splitListOn sep cs <;> simp

theorem splitListOn_headD (sep : Char) (l : List Char) :
    (splitListOn sep l).headD [] = l.takeWhile (fun c => decide (c ≠ sep)) := by
  induction l with
  | nil => simp [splitListOn]
  | cons c cs ih =>
    simp only [splitListOn, List.takeWhile_cons]
    by_cases hc : c = sep
    · simp [hc]
    · simp only [if_neg hc]
      cases h : splitListOn sep cs with
      | nil => exact absurd h (splitListOn_ne_nil sep cs)
      | cons r rs =>
        have := ih
        rw [h] at this
        simp at this
        simp [hc, this]

theorem splitListOn_length (sep : Char) (l : List Char) :
    (splitListOn sep l).length = l.count sep + 1 := by
  induction l with
  | nil => simp [splitListOn]
  | cons c cs ih =>
    simp only [splitListOn]
    by_cases hc : c = sep
    · simp [hc, List.count_cons, ih]
    · simp only [if_neg hc]
      cases h : splitListOn sep cs with
      | nil => exact absurd h (splitListOn_ne_nil sep cs)
      | cons r rs =>
        rw [h] at ih
        simp only [List.length_cons] at ih ⊢
        have hne : ¬(c == sep) = true := by simp [hc]
        simp [List.count_cons, hc, ← ih]

/-- Key lookup in the Go map `map[string]kindNameVersion`, modelled on an
association list (`_, found := right[k]` in `src/main.go`). -/
def mapFound (m : List (String × kindNameVersion)) (k : String) : Bool :=
  m.any (fun p => p.1 == k)

/-- Go map assignment `m[k] = v`: overwrite the entry when the key is present,
append a new entry otherwise. -/
def mapInsert (m : List (String × kindNameVersion)) (k : String) (v : kindNameVersion) :
    List (String × kindNameVersion) :=
  if mapFound m k then m.map (fun p => if p.1 == k then (k, v) else p) else m ++ [(k, v)]

/-- The comparator passed to `sort.Slice` in `compare` (`src/main.go`):
`if left.kind == right.kind { return left.name < right.name }; return left.kind < right.kind`. -/
def knvLess (a b : kindNameVersion) : Bool :=
  if a.kind = b.kind then decide (a.name < b.name) else decide (a.kind < b.kind)

/-- The non-strict order guaranteed by `sort.Slice` for the comparator `knvLess`. -/
def knvLE (a b : kindNameVersion) : Prop := knvLess b a = false

instance : DecidableRel knvLE := fun a b => by
  unfold knvLE
  infer_instance

theorem knvLE_iff (a b : kindNameVersion) :
    knvLE a b ↔ (a.kind < b.kind ∨ (a.kind = b.kind ∧ a.name ≤ b.name)) := by
  unfold knvLE knvLess
  by_cases h : b.kind = a.kind
  · rw [if_pos h, decide_eq_false_iff_not, not_lt]
    constructor
    · intro hn
      exact Or.inr ⟨h.symm, hn⟩
    · rintro (hlt | ⟨-, hle⟩)
      · rw [h] at hlt
        exact absurd hlt (lt_irrefl _)
      · exact hle
  · rw [if_neg h, decide_eq_false_iff_not, not_lt]
    constructor
    · intro hle
      exact Or.inl (lt_of_le_of_ne hle (fun he => h he.symm))
    · rintro (hlt | ⟨he, -⟩)
      · exact le_of_lt hlt
      · exact he.le

instance : IsTotal kindNameVersion knvLE := by
  constructor
  intro a b
  rw [knvLE_iff, knvLE_iff]
  rcases lt_trichotomy a.kind b.kind with h | h | h
  · exact Or.inl (Or.inl h)
  · rcases le_total a.name b.name with hn | hn
    · exact Or.inl (Or.inr ⟨h, hn⟩)
    · exact Or.inr (Or.inr ⟨h.symm, hn⟩)
  · exact Or.inr (Or.inl h)

instance : IsTrans kindNameVersion knvLE := by
  constructor
  intro a b c hab hbc
  rw [knvLE_iff] at hab hbc ⊢
  rcases hab with h1 | ⟨h1, h1n⟩ <;> rcases hbc with h2 | ⟨h2, h2n⟩
  · exact Or.inl (h1.trans h2)
  · exact Or.inl (h2 ▸ h1)
  · exact Or.inl (h1 ▸ h2)
  · exact Or.inr ⟨h1.trans h2, h1n.trans h2n⟩

/-- `sort.Slice(orphaned, less)` with the comparator `knvLess`: the result is sorted
with respect to `knvLE`; embedded as insertion sort. -/
def sortKNV (l : List kindNameVersion) : List kindNameVersion :=
  List.insertionSort knvLE l

/-- `compare` from `src/main.go`: the values of `left` whose key is absent from
`right`, sorted by the `sort.Slice` call. -/
def compare (left right : List (String × kindNameVersion)) : List kindNameVersion :=
  sortKNV ((left.filter (fun p => !mapFound right p.1)).map Prod.snd)

/-- `simpleKind` from `src/main.go`. -/
def simpleKind (m : kindNameVersion) : String :=
  let kind := goToLower m.kind
  if goContains m.apiVersion '/' then
    kind ++ "s." ++ goToLower ((splitStrOn '/' m.apiVersion).headD "")
  else kind

/-- `shouldIgnore` from `src/main.go`: some ignore entry matches the simple kind and
the raw name. -/
def shouldIgnore (found : kindNameVersion) (ignored : List kindName) : Bool :=
  ignored.any (fun i => i.kind == simpleKind found && i.name == found.name)

/-- `removeIgnored` from `src/main.go`: keep the manifests that are not ignored
(the ignore check is skipped entirely when the ignore list is empty). -/
def removeIgnored (knms : List kindNameVersion) (ignored : List kindName) :
    List kindNameVersion :=
  knms.filter (fun knm => !(decide (0 < ignored.length) && shouldIgnore knm ignored))

/-- The indexed manifest set built by the loop of `parseManifest` in `src/main.go`:
each triple is stored at key `kind ++ name`. -/
def buildIndex (docs : List kindNameVersion) : List (String × kindNameVersion) :=
  docs.foldl (fun acc m => mapInsert acc (m.kind ++ m.name) m) []

/-- A decoded YAML value as decoded into the Go type `map[string]interface{}`:
a string, a nested mapping, or any other value (number, list, null, ...). -/
inductive YamlVal where
  | str : String → YamlVal
  | map : List (String × YamlVal) → YamlVal
  | other : YamlVal

/-- A decoded YAML document: a mapping from string keys to values. -/
abbrev YamlDoc := List (String × YamlVal)

/-- Go map lookup `manifest[k]` on a decoded document. -/
def yamlLookup (doc : YamlDoc) (k : String) : Option YamlVal :=
  (doc.find? (fun p => p.1 == k)).map Prod.snd

/-- `getAPIVersion` from `src/main.go`: `manifest["apiVersion"].(string)`.
`none` models the panic of the unchecked type assertion. -/
def getAPIVersion (doc : YamlDoc) : Option String :=
  match yamlLookup doc "apiVersion" with
  | some (YamlVal.str s) => some s
  | _ => none

/-- `getKind` from `src/main.go`: `manifest["kind"].(string)`. -/
def getKind (doc : YamlDoc) : Option String :=
  match yamlLookup doc "kind" with
  | some (YamlVal.str s) => some s
  | _ => none

/-- `getName` from `src/main.go`:
`manifest["metadata"].(map[string]interface{})["name"].(string)`. -/
def getName (doc : YamlDoc) : Option String :=
  match yamlLookup doc "metadata" with
  | some (YamlVal.map md) =>
    match yamlLookup md "name" with
    | some (YamlVal.str s) => some s
    | _ => none
  | _ => none

/-- Does the document carry a string at top-level key `k`?  (When false, the
corresponding unchecked type assertion in `src/main.go` panics.) -/
def stringKeyOk (doc : YamlDoc) (k : String) : Bool :=
  match yamlLookup doc k with
  | some (YamlVal.str _) => true
  | _ => false

/-- Does the document carry a mapping at `metadata` holding a string `name`? -/
def nameOk (doc : YamlDoc) : Bool :=
  match yamlLookup doc "metadata" with
  | some (YamlVal.map md) => stringKeyOk md "name"
  | _ => false

/-- The identity-extraction step of the `parseManifest` loop (`src/main.go`);
`none` models a panic in any of the three getters. -/
def extractIdentity (doc : YamlDoc) : Option kindNameVersion :=
  match getKind doc, getName doc, getAPIVersion doc with
  | some kind, some name, some apiVersion => some ⟨apiVersion, kind, name⟩
  | _, _, _ => none

/-- The loop of `parseManifest` over the successfully decoded documents
(`src/main.go`): build the indexed set keyed by `kind ++ name`; `none` models a
panic while extracting any document. -/
def parseManifestDocs (docs : List YamlDoc) : Option (List (String × kindNameVersion)) :=
  docs.foldlM (fun acc doc =>
    (extractIdentity doc).map (fun m => mapInsert acc (m.kind ++ m.name) m)) []

/-- `parseManifest` from `src/main.go`, after the file has been read: the decoder
outcome is either a structural error (wrapped as `unable to parse manifests`) or a
list of decoded documents handed to the extraction loop. -/
def parseManifest (decoded : Except String (List YamlDoc)) :
    Except String (Option (List (String × kindNameVersion))) :=
  match decoded with
  | Except.error e => Except.error ("unable to parse manifests: " ++ e)
  | Except.ok docs => Except.ok (parseManifestDocs docs)

/-- The pair built from one ignore entry by `parseIgnoredManifests`
(`src/main.go`): the two components of the split at `:`. -/
def entryPair (s : String) : kindName :=
  match splitStrOn ':' s with
  | [k, n] => { kind := k, name := n }
  | _ => { kind := "", name := "" }

/-- The loop of `parseIgnoredManifests` (`src/main.go`): each comma-separated
entry must split at `:` into exactly two parts; the first malformed entry aborts
with `invalid ignored manifest format: <entry>`. -/
def parseIgnoredEntries : List String → Except String (List kindName)
  | [] => Except.ok []
  | s :: rest =>
    match splitStrOn ':' s with
    | [k, n] => (parseIgnoredEntries rest).map (fun l => { kind := k, name := n } :: l)
    | _ => Except.error ("invalid ignored manifest format: " ++ s)

/-- `parseIgnoredManifests` from `src/main.go`. -/
def parseIgnoredManifests (ignored : String) : Except String (List kindName) :=
  parseIgnoredEntries (splitStrOn ',' ignored)

/-- The ignore handling in `run` (`src/main.go`): the parser is only invoked when
the `-ignore` string is non-empty; an empty string yields the empty ignore set. -/
def runIgnored (s : String) : Except String (List kindName) :=
  if 0 < s.length then parseIgnoredManifests s else Except.ok []

/-- One deletion command line written by `generateDeletionScript` (`src/main.go`). -/
def deletionLine (m : kindNameVersion) : String :=
  "kubectl delete -n kyma-system " ++ simpleKind m ++ " " ++ goToLower m.name ++ "\n"

/-- The content written by `generateDeletionScript` (`src/main.go`): the shebang
header, a blank line, then one deletion command per orphan, appended in order. -/
def generateDeletionScript (from_ : List kindNameVersion) : String :=
  from_.foldl (fun acc m => acc ++ deletionLine m) "#!/usr/bin/env bash\n\n"

/-- The ASCII single-quote character, used by the `Deletion script created` line. -/
def squote : String := String.mk [Char.ofNat 39]

/-- The lines printed by `printSummary` (`src/main.go`); `%+v` on the struct
renders as `{apiVersion:.. kind:.. name:..}`. -/
def printSummary (manifests : List kindNameVersion) : List String :=
  if manifests.length = 0 then []
  else
    "Resources to be deleted after upgrade:\n" ::
      manifests.map (fun m =>
        "\x7bapiVersion:" ++ m.apiVersion ++ " kind:" ++ m.kind ++ " name:" ++
          m.name ++ "\x7d\n")

/-- The observable outcome of one run: the lines written to the output writer and
the content of the generated script file (`none` when no file is created). -/
structure RunOutput where
  stdout : List String
  file : Option String
deriving DecidableEq

/-- The tail of `run` (`src/main.go`) after both manifest files parsed to the
indexed sets `fromIdx`/`toIdx` and the ignore list parsed to `ignored`:
compare, early-out when the delta is empty, filter, report, emit. -/
def runPipeline (fromIdx toIdx : List (String × kindNameVersion))
    (ignored : List kindName) (outputFile : String) : RunOutput :=
  let orphaned := Cleanup.compare fromIdx toIdx
  if orphaned.length = 0 then
    { stdout := ["Manifests are equal\n"], file := none }
  else
    let filtered := removeIgnored orphaned ignored
    if 0 < outputFile.length then
      { stdout := printSummary filtered ++
          ["Deletion script created: " ++ squote ++ outputFile ++ squote ++ "\n"],
        file := some (generateDeletionScript filtered) }
    else
      { stdout := printSummary filtered, file := none }

/-- The resource token as worded by the spec (§4.5): lowercase the kind and, when
the apiVersion contains a `/`, append a literal `s`, a dot, and the lowercased
substring of the apiVersion before the first `/`. -/
def specSimpleKind (m : kindNameVersion) : String :=
  if goContains m.apiVersion '/' then
    goToLower m.kind ++ "s." ++
      goToLower (String.mk (m.apiVersion.data.takeWhile (fun c => decide (c ≠ '/'))))
  else goToLower m.kind

/-- The emitted script as worded by the spec (§4.5): the shebang line, a blank
line, then one `kubectl delete -n kyma-system <simple-kind> <name>` line per
orphan in order, with the name lowercased. -/
def specScript (orphans : List kindNameVersion) : String :=
  "#!/usr/bin/env bash\n" ++ "\n" ++
    String.join (orphans.map (fun m =>
      "kubectl delete -n kyma-system " ++ specSimpleKind m ++ " " ++ goToLower m.name ++ "\n"))

theorem simpleKind_eq_specSimpleKind (m : kindNameVersion) :
    simpleKind m = specSimpleKind m := by
  unfold simpleKind specSimpleKind
  cases hc : goContains m.apiVersion '/'
  · simp [hc]
  · simp only [hc, if_true]
    congr 2
    unfold splitStrOn
    cases h : splitListOn '/' m.apiVersion.data with
    | nil => exact absurd h (splitListOn_ne_nil _ _)
    | cons r rs =>
      have hh := splitListOn_headD '/' m.apiVersion.data
      rw [h] at hh
      simp only [List.headD_cons] at hh
      simp [hh]

theorem foldl_append_eq_join (f : kindNameVersion → String) (l : List kindNameVersion) :
    ∀ init : String, l.foldl (fun acc m => acc ++ f m) init = init ++ String.join (l.map f) := by
  induction l with
  | nil =>
    intro init
    apply String.ext
    simp
  | cons a t ih =>
    intro init
    simp only [List.foldl_cons, List.map_cons]
    rw [ih (init ++ f a), String.append_assoc]
    congr 1
    apply String.ext
    simp

theorem toLower_eq_dot {c : Char} (h : c.toLower = '.') : c = '.' := by
  simp only [Char.toLower] at h
  split at h
  · next hcond =>
    exfalso
    obtain ⟨h1, h2⟩ := hcond
    generalize hgen : c.toNat = n at h1 h2 h
    interval_cases n <;> exact absurd h (by decide)
  · exact h

theorem goContains_toLower_dot (s : String) (h : goContains s '.' = false) :
    goContains (goToLower s) '.' = false := by
  unfold goContains goToLower at *
  simp only [List.any_map, List.any_eq_false, Function.comp] at *
  intro c hmem
  simp only [beq_iff_eq]
  intro heq
  exact absurd (by simp [toLower_eq_dot heq] : (c == '.') = true) (h c hmem)

theorem compare_self (idx : List (String × kindNameVersion)) :
    Cleanup.compare idx idx = [] := by
  unfold Cleanup.compare sortKNV
  have hf : idx.filter (fun p => !mapFound idx p.1) = [] := by
    rw [List.filter_eq_nil_iff]
    intro p hp
    simp only [Bool.not_eq_true', Bool.not_eq_false]
    unfold mapFound
    rw [List.any_eq_true]
    exact ⟨p, hp, by simp⟩
  rw [hf]
  rfl

theorem mapFound_mapInsert (acc : List (String × kindNameVersion)) (k k' : String)
    (v : kindNameVersion) (h : mapFound acc k' = true) :
    mapFound (mapInsert acc k v) k' = true := by
  unfold mapInsert
  split
  · unfold mapFound at *
    rw [List.any_map, List.any_eq_true]
    rw [List.any_eq_true] at h
    obtain ⟨p, hp, hpk⟩ := h
    refine ⟨p, hp, ?_⟩
    simp only [Function.comp]
    by_cases hk : (p.1 == k) = true
    · have h1 : p.1 = k := by simpa using hk
      have h2 : p.1 = k' := by simpa using hpk
      simp [hk, ← h1, h2]
    · simp only [hk]
      simpa using hpk
  · unfold mapFound at *
    rw [List.any_append]
    simp [h]

theorem mapFound_mapInsert_self (acc : List (String × kindNameVersion)) (k : String)
    (v : kindNameVersion) : mapFound (mapInsert acc k v) k = true := by
  unfold mapInsert
  split
  · next hfound =>
    unfold mapFound at *
    rw [List.any_map, List.any_eq_true]
    rw [List.any_eq_true] at hfound
    obtain ⟨p, hp, hpk⟩ := hfound
    exact ⟨p, hp, by simp [Function.comp, hpk]⟩
  · unfold mapFound
    rw [List.any_append]
    simp [mapFound]

theorem mapInsert_key_inv (acc : List (String × kindNameVersion)) (k : String)
    (v : kindNameVersion) (hk : k = v.kind ++ v.name)
    (hacc : ∀ p ∈ acc, p.1 = p.2.kind ++ p.2.name) :
    ∀ p ∈ mapInsert acc k v, p.1 = p.2.kind ++ p.2.name := by
  unfold mapInsert
  split
  · intro p hp
    rw [List.mem_map] at hp
    obtain ⟨q, hq, hqp⟩ := hp
    by_cases h : (q.1 == k) = true
    · rw [if_pos h] at hqp
      rw [← hqp]
      exact hk
    · rw [if_neg h] at hqp
      rw [← hqp]
      exact hacc q hq
  · intro p hp
    rw [List.mem_append] at hp
    rcases hp with hp | hp
    · exact hacc p hp
    · rw [List.mem_singleton] at hp
      rw [hp]
      exact hk

theorem buildIndex_key_inv (docs : List kindNameVersion) :
    ∀ p ∈ buildIndex docs, p.1 = p.2.kind ++ p.2.name := by
  unfold buildIndex
  suffices h : ∀ (acc : List (String × kindNameVersion)),
      (∀ p ∈ acc, p.1 = p.2.kind ++ p.2.name) →
      ∀ p ∈ docs.foldl (fun acc m => mapInsert acc (m.kind ++ m.name) m) acc,
        p.1 = p.2.kind ++ p.2.name by
    exact h [] (by simp)
  induction docs with
  | nil => intro acc hacc; simpa using hacc
  | cons d t ih =>
    intro acc hacc
    simp only [List.foldl_cons]
    exact ih _ (mapInsert_key_inv acc _ d rfl hacc)

theorem buildIndex_found (docs : List kindNameVersion) (m : kindNameVersion)
    (hm : m ∈ docs) : mapFound (buildIndex docs) (m.kind ++ m.name) = true := by
  unfold buildIndex
  suffices h : ∀ (acc : List (String × kindNameVersion)),
      (m ∈ docs ∨ mapFound acc (m.kind ++ m.name) = true) →
      mapFound (docs.foldl (fun acc m => mapInsert acc (m.kind ++ m.name) m) acc)
        (m.kind ++ m.name) = true by
    exact h [] (Or.inl hm)
  clear hm
  induction docs with
  | nil =>
    intro acc hacc
    rcases hacc with h | h
    · cases h
    · simpa using h
  | cons d t ih =>
    intro acc hacc
    simp only [List.foldl_cons]
    rcases hacc with h | h
    · rcases List.mem_cons.mp h with rfl | hmem
      · exact ih _ (Or.inr (mapFound_mapInsert_self acc _ m))
      · exact ih _ (Or.inl hmem)
    · exact ih _ (Or.inr (mapFound_mapInsert acc _ _ d h))

theorem foldlM_option_none {α β : Type} (f : β → α → Option β) (a : α)
    (hfail : ∀ b, f b a = none) :
    ∀ (l : List α), a ∈ l → ∀ init, l.foldlM f init = none := by
  intro l
  induction l with
  | nil => intro h; cases h
  | cons x t ih =>
    intro ha init
    rw [List.foldlM_cons]
    rcases List.mem_cons.mp ha with rfl | hmem
    · rw [hfail init]
      rfl
    · cases hfx : f init x with
      | none => rfl
      | some b => exact ih hmem b

theorem getAPIVersion_none (d : YamlDoc) (h : stringKeyOk d "apiVersion" = false) :
    getAPIVersion d = none := by
  unfold getAPIVersion
  unfold stringKeyOk at h
  cases hy : yamlLookup d "apiVersion" with
  | none => rfl
  | some v =>
    cases v with
    | str s => rw [hy] at h; simp at h
    | map l => rfl
    | other => rfl

theorem getKind_none (d : YamlDoc) (h : stringKeyOk d "kind" = false) :
    getKind d = none := by
  unfold getKind
  unfold stringKeyOk at h
  cases hy : yamlLookup d "kind" with
  | none => rfl
  | some v =>
    cases v with
    | str s => rw [hy] at h; simp at h
    | map l => rfl
    | other => rfl

theorem getName_none (d : YamlDoc) (h : nameOk d = false) : getName d = none := by
  unfold getName
  unfold nameOk stringKeyOk at h
  cases hy : yamlLookup d "metadata" with
  | none => rfl
  | some v =>
    cases v with
    | str s => rfl
    | other => rfl
    | map md =>
      rw [hy] at h
      simp only [] at h ⊢
      cases hn : yamlLookup md "name" with
      | none => rfl
      | some w =>
        cases w with
        | str s => rw [hn] at h; simp at h
        | map l => rfl
        | other => rfl

theorem extractIdentity_none (d : YamlDoc)
    (hbad : stringKeyOk d "apiVersion" = false ∨ stringKeyOk d "kind" = false ∨
      nameOk d = false) :
    extractIdentity d = none := by
  unfold extractIdentity
  rcases hbad with hb | hb | hb
  · rw [getAPIVersion_none d hb]
    cases getKind d <;> cases getName d <;> rfl
  · rw [getKind_none d hb]
  · rw [getName_none d hb]
    cases getKind d <;> rfl

theorem parseIgnoredEntries_spec (entries : List String) :
    (match entries.find? (fun e => e.data.count ':' != 1) with
     | some e =>
       parseIgnoredEntries entries = Except.error ("invalid ignored manifest format: " ++ e)
     | none => parseIgnoredEntries entries = Except.ok (entries.map entryPair)) := by
  induction entries with
  | nil => simp [parseIgnoredEntries]
  | cons s rest ih =>
    by_cases hbad : (s.data.count ':' != 1) = true
    · have hfind : (s :: rest).find? (fun e => e.data.count ':' != 1) = some s :=
        List.find?_cons_of_pos rest hbad
      rw [hfind]
      have hlen : (splitStrOn ':' s).length ≠ 2 := by
        unfold splitStrOn
        rw [List.length_map, splitListOn_length]
        simp only [bne_iff_ne, ne_eq] at hbad
        omega
      show parseIgnoredEntries (s :: rest) = _
      unfold parseIgnoredEntries
      rcases h2 : splitStrOn ':' s with _ | ⟨k, _ | ⟨n, _ | ⟨x, xs⟩⟩⟩
      · rfl
      · rfl
      · rw [h2] at hlen; simp at hlen
      · rfl
    · have hfind : (s :: rest).find? (fun e => e.data.count ':' != 1) =
          rest.find? (fun e => e.data.count ':' != 1) :=
        List.find?_cons_of_neg rest hbad
      rw [hfind]
      have hlen : (splitStrOn ':' s).length = 2 := by
        unfold splitStrOn
        rw [List.length_map, splitListOn_length]
        simp only [bne_iff_ne, ne_eq, not_not] at hbad
        omega
      obtain ⟨k, n, hkn⟩ : ∃ k n, splitStrOn ':' s = [k, n] := by
        rcases h2 : splitStrOn ':' s with _ | ⟨k, _ | ⟨n, _ | ⟨x, xs⟩⟩⟩ <;>
          rw [h2] at hlen <;> simp at hlen
        exact ⟨k, n, rfl⟩
      cases hf : rest.find? (fun e => e.data.count ':' != 1) with
      | some e =>
        rw [hf] at ih
        show parseIgnoredEntries (s :: rest) = _
        unfold parseIgnoredEntries
        rw [hkn, ih]
        rfl
      | none =>
        rw [hf] at ih
        show parseIgnoredEntries (s :: rest) = _
        unfold parseIgnoredEntries
        rw [hkn, ih]
        have hep : entryPair s = { kind := k, name := n } := by
          unfold entryPair
          rw [hkn]
        rw [List.map_cons, hep]
        rfl

theorem noop_ne_created (t : String) :
    ("Manifests are equal\n" : String) ≠ "Deletion script created: " ++ t := by
  intro h
  have hd := congrArg String.data h
  rw [String.data_append] at hd
  rw [show ("Manifests are equal\n" : String).data
        = 'M' :: ("anifests are equal\n" : String).data from rfl,
      show ("Deletion script created: " : String).data
        = 'D' :: ("eletion script created: " : String).data from rfl,
      List.cons_append] at hd
  injection hd with h1 h2
  exact absurd h1 (by decide)

/-- Claim C1: if a (kind, name) pair is present in both the `from` and the `to`
manifest set, the resource is not in the orphan list, even when the recorded
apiVersion differs between the two sets; presence is decided solely by the
`kind ++ name` concatenation key. -/
theorem C1_presence_by_key (fromDocs toDocs : List kindNameVersion) (k n : String)
    (_hf : ∃ u ∈ fromDocs, u.kind = k ∧ u.name = n)
    (ht : ∃ w ∈ toDocs, w.kind = k ∧ w.name = n) :
    ∀ v ∈ Cleanup.compare (buildIndex fromDocs) (buildIndex toDocs),
      ¬(v.kind = k ∧ v.name = n) := by
  rintro v hv ⟨hvk, hvn⟩
  obtain ⟨w, hw, hwk, hwn⟩ := ht
  have hfound : mapFound (buildIndex toDocs) (k ++ n) = true := by
    have h := buildIndex_found toDocs w hw
    rwa [hwk, hwn] at h
  unfold Cleanup.compare sortKNV at hv
  rw [List.mem_insertionSort, List.mem_map] at hv
  obtain ⟨p, hp, hpv⟩ := hv
  rw [List.mem_filter] at hp
  obtain ⟨hpmem, hpfilter⟩ := hp
  have hkey : p.1 = p.2.kind ++ p.2.name := buildIndex_key_inv fromDocs p hpmem
  rw [hpv, hvk, hvn] at hkey
  rw [Bool.not_eq_true'] at hpfilter
  rw [hkey] at hpfilter
  rw [hpfilter] at hfound
  cases hfound

/-- Witness for C1 at a concrete input: the same (kind, name) with two different
apiVersions in the two sets is not orphaned. -/
theorem C1_presence_by_key_witness :
    (∃ u ∈ ([⟨"apps/v1", "Deployment", "x"⟩] : List kindNameVersion),
      u.kind = "Deployment" ∧ u.name = "x") ∧
    (∃ w ∈ ([⟨"apps/v2", "Deployment", "x"⟩] : List kindNameVersion),
      w.kind = "Deployment" ∧ w.name = "x") ∧
    ∀ v ∈ Cleanup.compare (buildIndex [⟨"apps/v1", "Deployment", "x"⟩])
        (buildIndex [⟨"apps/v2", "Deployment", "x"⟩]),
      ¬(v.kind = "Deployment" ∧ v.name = "x") :=
  ⟨by decide, by decide,
    C1_presence_by_key [⟨"apps/v1", "Deployment", "x"⟩] [⟨"apps/v2", "Deployment", "x"⟩]
      "Deployment" "x" (by decide) (by decide)⟩

/-- Claim C2: for every non-empty orphan list, the emitted script is exactly the
shebang line, a blank line, then for each orphan in order one line
`kubectl delete -n kyma-system <simple-kind> <name>`, with `<name>` the
lowercased metadata.name and `<simple-kind>` the lowercased kind, group-qualified
by `s.` plus the lowercased apiVersion prefix before the first `/` exactly when
the apiVersion contains a `/`. -/
theorem C2_script_exact (orphans : List kindNameVersion) (_h : orphans ≠ []) :
    generateDeletionScript orphans = specScript orphans := by
  have hfun : deletionLine = (fun m : kindNameVersion =>
      "kubectl delete -n kyma-system " ++ specSimpleKind m ++ " " ++ goToLower m.name ++ "\n") := by
    funext m
    unfold deletionLine
    rw [simpleKind_eq_specSimpleKind]
  unfold generateDeletionScript specScript
  rw [hfun, foldl_append_eq_join]
  rw [show ("#!/usr/bin/env bash\n\n" : String) = "#!/usr/bin/env bash\n" ++ "\n" from by decide]

/-- Witness for C2 at a concrete non-empty orphan list. -/
theorem C2_script_exact_witness :
    ([⟨"apps/v1", "Deployment", "X"⟩] : List kindNameVersion) ≠ [] ∧
    generateDeletionScript [⟨"apps/v1", "Deployment", "X"⟩] =
      specScript [⟨"apps/v1", "Deployment", "X"⟩] :=
  ⟨by decide, C2_script_exact [⟨"apps/v1", "Deployment", "X"⟩] (by decide)⟩

/-- Claim C3: the orphan sequence that is reported and emitted (after ignore
filtering) is sorted ascending by (kind, name), lexicographically on the raw
triple fields, for every input and every ignore list. -/
theorem C3_output_sorted (fromIdx toIdx : List (String × kindNameVersion))
    (ig : List kindName) :
    List.Chain' (fun a b => a.kind < b.kind ∨ (a.kind = b.kind ∧ a.name ≤ b.name))
      (removeIgnored (Cleanup.compare fromIdx toIdx) ig) := by
  have hs : List.Sorted knvLE (Cleanup.compare fromIdx toIdx) :=
    List.sorted_insertionSort knvLE _
  have hsub : List.Sublist (removeIgnored (Cleanup.compare fromIdx toIdx) ig)
      (Cleanup.compare fromIdx toIdx) := List.filter_sublist _
  have hp : List.Pairwise knvLE (removeIgnored (Cleanup.compare fromIdx toIdx) ig) :=
    List.Pairwise.sublist hsub hs
  exact (List.Pairwise.chain' hp).imp (fun a b hab => (knvLE_iff a b).mp hab)

/-- Claim C4: an ignore entry suppresses an orphan exactly when the entry kind
equals the simple kind of the orphan and the entry name equals the raw
(case-sensitive) metadata.name of the orphan. -/
theorem C4_ignore_match (m : kindNameVersion) (orphans : List kindNameVersion)
    (ig : List kindName) (hm : m ∈ orphans) :
    m ∈ removeIgnored orphans ig ↔
      ¬∃ e ∈ ig, e.kind = simpleKind m ∧ e.name = m.name := by
  unfold removeIgnored
  rw [List.mem_filter, and_iff_right hm]
  cases ig with
  | nil => simp [shouldIgnore]
  | cons e es =>
    simp only [List.length_cons, Nat.zero_lt_succ, decide_True, Bool.true_and,
      Bool.not_eq_true']
    unfold shouldIgnore
    rw [List.any_eq_false]
    constructor
    · intro hall
      rintro ⟨i, hi, hik, hin⟩
      have := hall i hi
      simp only [Bool.and_eq_true, beq_iff_eq, not_and] at this
      exact this hik hin
    · intro hnone i hi
      simp only [Bool.and_eq_true, beq_iff_eq, not_and]
      intro hik hin
      exact hnone ⟨i, hi, hik, hin⟩

/-- Witness for C4 at a concrete input: a lowercased-name entry does not suppress
an orphan whose raw name is capitalised. -/
theorem C4_ignore_match_witness :
    ((⟨"v1", "ConfigMap", "Foo"⟩ : kindNameVersion) ∈
      ([⟨"v1", "ConfigMap", "Foo"⟩] : List kindNameVersion)) ∧
    ((⟨"v1", "ConfigMap", "Foo"⟩ : kindNameVersion) ∈
        removeIgnored [⟨"v1", "ConfigMap", "Foo"⟩] [⟨"configmap", "foo"⟩] ↔
      ¬∃ e ∈ ([⟨"configmap", "foo"⟩] : List kindName),
        e.kind = simpleKind ⟨"v1", "ConfigMap", "Foo"⟩ ∧ e.name = "Foo") :=
  ⟨by decide,
    C4_ignore_match ⟨"v1", "ConfigMap", "Foo"⟩ [⟨"v1", "ConfigMap", "Foo"⟩]
      [⟨"configmap", "foo"⟩] (by decide)⟩

/-- Counterexample to claim C5 as stated: on an empty delta the program prints
`Manifests are equal`, not the claimed no-op line `Manifests delta is ok`. -/
theorem C5_noop_line_counterexample :
    (runPipeline (buildIndex [⟨"v1", "ConfigMap", "a"⟩])
        (buildIndex [⟨"v1", "ConfigMap", "a"⟩]) [] "out.sh").stdout =
      ["Manifests are equal\n"] ∧
    "Manifests delta is ok\n" ∉ (runPipeline (buildIndex [⟨"v1", "ConfigMap", "a"⟩])
        (buildIndex [⟨"v1", "ConfigMap", "a"⟩]) [] "out.sh").stdout ∧
    "Manifests delta is ok" ∉ (runPipeline (buildIndex [⟨"v1", "ConfigMap", "a"⟩])
        (buildIndex [⟨"v1", "ConfigMap", "a"⟩]) [] "out.sh").stdout := by
  decide

/-- Claim C5 (amended): whenever the orphan list is empty the program prints the
no-op line `Manifests are equal`, the emitter is not invoked and no output file
is written even when an output file is supplied; in particular the delta of any
manifest set with itself is empty. -/
theorem C5_empty_delta_noop (fromIdx toIdx : List (String × kindNameVersion))
    (ig : List kindName) (out : String)
    (h : (Cleanup.compare fromIdx toIdx).length = 0) :
    runPipeline fromIdx toIdx ig out =
      { stdout := ["Manifests are equal\n"], file := none } ∧
    ∀ idx : List (String × kindNameVersion), Cleanup.compare idx idx = [] := by
  constructor
  · unfold runPipeline
    simp [h]
  · exact compare_self

/-- Witness for C5 at a concrete input: the same manifest set as both `from` and
`to` yields the no-op line and no output file. -/
theorem C5_empty_delta_noop_witness :
    (Cleanup.compare (buildIndex [⟨"v1", "ConfigMap", "a"⟩])
        (buildIndex [⟨"v1", "ConfigMap", "a"⟩])).length = 0 ∧
    (runPipeline (buildIndex [⟨"v1", "ConfigMap", "a"⟩])
        (buildIndex [⟨"v1", "ConfigMap", "a"⟩]) [] "out.sh" =
      { stdout := ["Manifests are equal\n"], file := none } ∧
    ∀ idx : List (String × kindNameVersion), Cleanup.compare idx idx = []) :=
  ⟨by decide,
    C5_empty_delta_noop (buildIndex [⟨"v1", "ConfigMap", "a"⟩])
      (buildIndex [⟨"v1", "ConfigMap", "a"⟩]) [] "out.sh" (by decide)⟩

/-- Claim C6: appending an entry to the ignore list can only remove orphans from
the filtered output: the result is a subsequence of the output without that
entry. -/
theorem C6_monotone_ignore (orphans : List kindNameVersion) (I : List kindName)
    (e : kindName) :
    List.Sublist (removeIgnored orphans (I ++ [e])) (removeIgnored orphans I) := by
  unfold removeIgnored
  apply List.monotone_filter_right
  intro a ha
  cases hI : decide (0 < I.length) with
  | false => simp [hI]
  | true =>
    have hIe : decide (0 < (I ++ [e]).length) = true := by
      rw [decide_eq_true_iff] at hI ⊢
      rw [List.length_append]
      omega
    rw [hIe] at ha
    rw [Bool.true_and, Bool.not_eq_true'] at ha
    have hsI : shouldIgnore a I = false := by
      unfold shouldIgnore at ha ⊢
      rw [List.any_append] at ha
      exact (Bool.or_eq_false_iff.mp ha).1
    simp [hI, hsI]

/-- Claim C7: parsing a non-empty ignore string fails with
`invalid ignored manifest format: <entry>` naming the first offending entry
exactly when some comma-separated entry does not contain exactly one `:`;
otherwise it yields one (kind, name) pair per entry.  An empty ignore string
yields the empty ignore set without error. -/
theorem C7_ignore_parsing (s : String) (_hs : s ≠ "") :
    (match (splitStrOn ',' s).find? (fun e => e.data.count ':' != 1) with
     | some e =>
       parseIgnoredManifests s = Except.error ("invalid ignored manifest format: " ++ e)
     | none => parseIgnoredManifests s = Except.ok ((splitStrOn ',' s).map entryPair)) ∧
    runIgnored "" = Except.ok [] :=
  ⟨parseIgnoredEntries_spec (splitStrOn ',' s), rfl⟩

/-- Witness for C7 at the concrete malformed entry `foo` from the spec scenarios. -/
theorem C7_ignore_parsing_witness :
    ("foo" : String) ≠ "" ∧
    ((match (splitStrOn ',' "foo").find? (fun e => e.data.count ':' != 1) with
      | some e =>
        parseIgnoredManifests "foo" =
          Except.error ("invalid ignored manifest format: " ++ e)
      | none =>
        parseIgnoredManifests "foo" = Except.ok ((splitStrOn ',' "foo").map entryPair)) ∧
     runIgnored "" = Except.ok []) :=
  ⟨by decide, C7_ignore_parsing "foo" (by decide)⟩

/-- Counterexample to claim C8 as stated: for the orphan
`{apiVersion: v1, kind: Foo.Bar, name: x}` (all fields non-empty) the emitted
resource token `foo.bar` contains a `.` although the apiVersion contains no `/`. -/
theorem C8_dot_iff_slash_counterexample :
    (kindNameVersion.mk "v1" "Foo.Bar" "x").kind ≠ "" ∧
    (kindNameVersion.mk "v1" "Foo.Bar" "x").name ≠ "" ∧
    (kindNameVersion.mk "v1" "Foo.Bar" "x").apiVersion ≠ "" ∧
    goContains (kindNameVersion.mk "v1" "Foo.Bar" "x").apiVersion '/' = false ∧
    goContains (simpleKind (kindNameVersion.mk "v1" "Foo.Bar" "x")) '.' = true := by
  decide

/-- Claim C8 (amended): for every orphan with non-empty kind, name and apiVersion
whose kind contains no `.` character, the emitted resource token contains a `.`
iff the apiVersion contains a `/`. -/
theorem C8_dot_iff_slash (m : kindNameVersion) (_h1 : m.kind ≠ "") (_h2 : m.name ≠ "")
    (_h3 : m.apiVersion ≠ "") (hdot : goContains m.kind '.' = false) :
    goContains (simpleKind m) '.' = true ↔ goContains m.apiVersion '/' = true := by
  unfold simpleKind
  cases hc : goContains m.apiVersion '/' with
  | true =>
    simp only [hc, if_true]
    constructor
    · intro _
      trivial
    · intro _
      unfold goContains
      rw [String.data_append, String.data_append, List.any_append, List.any_append]
      have hmid : ("s." : String).data.any (fun x => x == '.') = true := by decide
      simp [hmid]
  | false =>
    simp only [hc, Bool.false_eq_true, if_false]
    rw [goContains_toLower_dot m.kind hdot]
    simp

/-- Witness for C8 at a concrete orphan with a dot-free kind and a grouped
apiVersion. -/
theorem C8_dot_iff_slash_witness :
    (kindNameVersion.mk "apps/v1" "Deployment" "x").kind ≠ "" ∧
    (kindNameVersion.mk "apps/v1" "Deployment" "x").name ≠ "" ∧
    (kindNameVersion.mk "apps/v1" "Deployment" "x").apiVersion ≠ "" ∧
    goContains (kindNameVersion.mk "apps/v1" "Deployment" "x").kind '.' = false ∧
    (goContains (simpleKind (kindNameVersion.mk "apps/v1" "Deployment" "x")) '.' = true ↔
      goContains (kindNameVersion.mk "apps/v1" "Deployment" "x").apiVersion '/' = true) :=
  ⟨by decide, by decide, by decide, by decide,
    C8_dot_iff_slash (kindNameVersion.mk "apps/v1" "Deployment" "x")
      (by decide) (by decide) (by decide) (by decide)⟩

/-- Claim C9: when the raw delta is non-empty but the ignore filter removes every
orphan, the run prints neither the no-op line nor a summary, yet with an output
file requested it still invokes the emitter with the empty list, producing a file
holding only the shebang line and a blank line. -/
theorem C9_all_ignored_emits_header (fromIdx toIdx : List (String × kindNameVersion))
    (ig : List kindName) (out : String)
    (hne : (Cleanup.compare fromIdx toIdx).length ≠ 0)
    (hall : removeIgnored (Cleanup.compare fromIdx toIdx) ig = [])
    (hout : 0 < out.length) :
    (runPipeline fromIdx toIdx ig out).stdout =
      ["Deletion script created: " ++ squote ++ out ++ squote ++ "\n"] ∧
    "Manifests are equal\n" ∉ (runPipeline fromIdx toIdx ig out).stdout ∧
    (runPipeline fromIdx toIdx ig out).file = some "#!/usr/bin/env bash\n\n" := by
  have hrun : runPipeline fromIdx toIdx ig out =
      { stdout := ["Deletion script created: " ++ squote ++ out ++ squote ++ "\n"],
        file := some "#!/usr/bin/env bash\n\n" } := by
    unfold runPipeline
    rw [if_neg hne]
    simp only [hall]
    rw [if_pos hout]
    simp [printSummary, generateDeletionScript]
  refine ⟨by rw [hrun], ?_, by rw [hrun]⟩
  rw [hrun]
  intro hmem
  rw [List.mem_singleton] at hmem
  exact noop_ne_created _ hmem

/-- Witness for C9 at a concrete input: a single orphan fully suppressed by the
ignore list, with an output file requested. -/
theorem C9_all_ignored_emits_header_witness :
    (Cleanup.compare (buildIndex [⟨"v1", "ConfigMap", "a"⟩]) (buildIndex [])).length ≠ 0 ∧
    removeIgnored (Cleanup.compare (buildIndex [⟨"v1", "ConfigMap", "a"⟩]) (buildIndex []))
      [⟨"configmap", "a"⟩] = [] ∧
    0 < ("x.sh" : String).length ∧
    ((runPipeline (buildIndex [⟨"v1", "ConfigMap", "a"⟩]) (buildIndex [])
        [⟨"configmap", "a"⟩] "x.sh").stdout =
      ["Deletion script created: " ++ squote ++ "x.sh" ++ squote ++ "\n"] ∧
    "Manifests are equal\n" ∉ (runPipeline (buildIndex [⟨"v1", "ConfigMap", "a"⟩])
        (buildIndex []) [⟨"configmap", "a"⟩] "x.sh").stdout ∧
    (runPipeline (buildIndex [⟨"v1", "ConfigMap", "a"⟩]) (buildIndex [])
        [⟨"configmap", "a"⟩] "x.sh").file = some "#!/usr/bin/env bash\n\n") :=
  ⟨by decide, by decide, by decide,
    C9_all_ignored_emits_header (buildIndex [⟨"v1", "ConfigMap", "a"⟩]) (buildIndex [])
      [⟨"configmap", "a"⟩] "x.sh" (by decide) (by decide) (by decide)⟩

/-- Claim C10: a decoded document whose `apiVersion` or `kind` is missing or not
a string, or whose `metadata` is missing or not a mapping, or whose
`metadata.name` is missing or not a string, makes identity extraction panic
(modelled as `none`); the run does not surface the `unable to parse manifests`
structural error, so manifest parsing is not total over such documents. -/
theorem C10_extraction_not_total (docs : List YamlDoc) (d : YamlDoc) (hmem : d ∈ docs)
    (hbad : stringKeyOk d "apiVersion" = false ∨ stringKeyOk d "kind" = false ∨
      nameOk d = false) :
    extractIdentity d = none ∧
    parseManifestDocs docs = none ∧
    ∀ msg, parseManifest (Except.ok docs) ≠ Except.error msg := by
  have hext := extractIdentity_none d hbad
  refine ⟨hext, ?_, ?_⟩
  · unfold parseManifestDocs
    exact foldlM_option_none _ d (fun b => by rw [hext]; rfl) docs hmem []
  · intro msg h
    unfold parseManifest at h
    exact Except.noConfusion h

/-- Witness for C10 at a concrete document lacking `apiVersion`. -/
theorem C10_extraction_not_total_witness :
    ([("kind", YamlVal.str "Pod")] ∈ ([[("kind", YamlVal.str "Pod")]] : List YamlDoc)) ∧
    stringKeyOk [("kind", YamlVal.str "Pod")] "apiVersion" = false ∧
    (extractIdentity [("kind", YamlVal.str "Pod")] = none ∧
     parseManifestDocs [[("kind", YamlVal.str "Pod")]] = none ∧
     ∀ msg, parseManifest (Except.ok [[("kind", YamlVal.str "Pod")]]) ≠ Except.error msg) :=
  ⟨List.mem_singleton.mpr rfl, rfl,
    C10_extraction_not_total [[("kind", YamlVal.str "Pod")]] [("kind", YamlVal.str "Pod")]
      (List.mem_singleton.mpr rfl) (Or.inl rfl)⟩

end Cleanup
